import Mathlib

/-!
Verification development for the concurrency core of the n-util library:
Deferred, Mutex, BackgroundProcessor and the method-execution decorators
(debounce, dedupe, throttle, synchronize).

The JavaScript/TypeScript code is shallowly embedded: promise settlement
becomes a settle-once cell, each stateful class becomes a structure with
explicit state-passing operations transliterated from its methods, and the
asynchronous control flow relevant to a property becomes either a small
state machine stepped by the events of the scenario or an explicit event
trace of the straight-line async body.
-/

namespace NUtil

/-! ## Promise settlement model

A JavaScript promise is a settle-once cell: the first call to the captured
`resolve`/`reject` closure settles it, every later call is a silent no-op.
`Deferred<T>` (src/deferred.ts) stores one such promise and simply forwards
`resolve`/`reject` to the captured closures, with no extra bookkeeping. -/

inductive PromiseState (α ρ : Type) where
  | pending
  | fulfilled (value : α)
  | rejected (reason : ρ)
  deriving DecidableEq, Repr

/-- One external settlement attempt on a promise: a call to the captured
`resolve` closure with a value, or to the captured `reject` closure with a
reason. -/
inductive SettleOp (α ρ : Type) where
  | resolve (value : α)
  | reject (reason : ρ)
  deriving DecidableEq, Repr

/-- The platform promise's settle-once rule: a settlement attempt on a
pending promise settles it; on an already-settled promise it does nothing. -/
def PromiseState.settle (s : PromiseState α ρ) (op : SettleOp α ρ) : PromiseState α ρ :=
  match s, op with
  | .pending, .resolve v => .fulfilled v
  | .pending, .reject r => .rejected r
  | s, _ => s

/-- `Deferred<T>`: holds the promise created at construction; `resolve` and
`reject` call the closures captured from the promise constructor. -/
structure Deferred (α ρ : Type) where
  promise : PromiseState α ρ
  deriving DecidableEq, Repr

/-- `new Deferred()`: the promise starts pending. -/
def Deferred.new : Deferred α ρ := ⟨.pending⟩

/-- `Deferred.resolve(value)`: forwards to the captured promise resolver. -/
def Deferred.resolve (d : Deferred α ρ) (v : α) : Deferred α ρ :=
  ⟨d.promise.settle (.resolve v)⟩

/-- `Deferred.reject(reason)`: forwards to the captured promise rejecter. -/
def Deferred.reject (d : Deferred α ρ) (r : ρ) : Deferred α ρ :=
  ⟨d.promise.settle (.reject r)⟩

/-- Apply one external settlement attempt to a deferred. -/
def Deferred.applyOp (d : Deferred α ρ) : SettleOp α ρ → Deferred α ρ
  | .resolve v => d.resolve v
  | .reject r => d.reject r

/-- Apply a sequence of external settlement attempts, first to last. -/
def Deferred.applyOps (d : Deferred α ρ) (ops : List (SettleOp α ρ)) : Deferred α ρ :=
  ops.foldl Deferred.applyOp d

lemma Deferred.applyOp_of_settled (d : Deferred α ρ) (op : SettleOp α ρ)
    (h : d.promise ≠ .pending) : d.applyOp op = d := by
  obtain ⟨p⟩ := d
  cases op <;> cases p <;>
    simp_all [Deferred.applyOp, Deferred.resolve, Deferred.reject, PromiseState.settle]

lemma Deferred.applyOps_of_settled (d : Deferred α ρ) (ops : List (SettleOp α ρ))
    (h : d.promise ≠ .pending) : d.applyOps ops = d := by
  induction ops with
  | nil => rfl
  | cons op rest ih =>
    simp only [Deferred.applyOps, List.foldl_cons]
    rw [Deferred.applyOp_of_settled d op h]
    exact ih

lemma Deferred.first_op_settles (op : SettleOp α ρ) :
    ((Deferred.new (α := α) (ρ := ρ)).applyOp op).promise ≠ .pending := by
  cases op <;> simp [Deferred.new, Deferred.applyOp, Deferred.resolve, Deferred.reject,
    PromiseState.settle]

/-! ## Mutex (src/mutex.ts)

The class holds `_deferreds : Array<Deferred<void>>` and
`_currentDeferred : Deferred<void> | null`.  Each queue entry is modelled by
a numeric identity (`nextId` issues them in creation order); `resolvedOrder`
records the deferreds resolved so far, in the order their `resolve()` was
called — i.e. the order in which the returned lock futures fire. -/

structure Mutex where
  deferreds : List Nat
  currentDeferred : Option Nat
  resolvedOrder : List Nat
  nextId : Nat
  deriving DecidableEq, Repr

namespace Mutex

/-- `new Mutex()`: empty queue, no current holder. -/
def new : Mutex := ⟨[], none, [], 0⟩

/-- `deferred.resolve()` on a queue entry: promise settle-once — append the
id to the resolution order unless it already resolved. -/
def resolveEntry (id : Nat) (s : Mutex) : Mutex :=
  if id ∈ s.resolvedOrder then s else { s with resolvedOrder := s.resolvedOrder ++ [id] }

/-- `Mutex.lock()`: create a deferred, push it; if it is the sole entry,
make it current and resolve it immediately (synchronous grant).  Returns the
new state and the id of the deferred whose promise the caller receives. -/
def lock (s : Mutex) : Mutex × Nat :=
  let id := s.nextId
  let s1 : Mutex := { s with deferreds := s.deferreds ++ [id], nextId := id + 1 }
  if s1.deferreds.length = 1 then
    (resolveEntry id { s1 with currentDeferred := some id }, id)
  else
    (s1, id)

/-- `Mutex.release()`: no-op when no current holder; otherwise remove the
current entry from the queue (`Array.remove` deletes the first occurrence),
make the new queue head current (`this._deferreds[0] || null`), and resolve
it when present. -/
def release (s : Mutex) : Mutex :=
  match s.currentDeferred with
  | none => s
  | some c =>
    let ds := s.deferreds.erase c
    let s1 : Mutex := { s with deferreds := ds, currentDeferred := ds.head? }
    match ds.head? with
    | none => s1
    | some c2 => resolveEntry c2 s1

/-- State after `n` consecutive `lock()` calls starting from a fresh mutex. -/
def lockN : Nat → Mutex
  | 0 => Mutex.new
  | n + 1 => (lockN n).lock.1

/-- State after `k` consecutive `release()` calls. -/
def releaseK (k : Nat) (s : Mutex) : Mutex := Nat.rec s (fun _ t => t.release) k

lemma releaseK_succ (k : Nat) (s : Mutex) :
    releaseK (k + 1) s = (releaseK k s).release := rfl

lemma lockN_spec (N : Nat) (h : 0 < N) :
    lockN N = ⟨List.range' 0 N, some 0, [0], N⟩ := by
  induction N with
  | zero => omega
  | succ n ih =>
    rcases Nat.eq_zero_or_pos n with hn | hn
    · subst hn; rfl
    · have : lockN (n + 1) = (lockN n).lock.1 := rfl
      rw [this, ih hn]
      have hlen : (List.range' 0 n ++ [n]).length = n + 1 := by
        simp [List.length_range']
      simp only [lock, hlen]
      have hne : ¬ (n + 1 = 1) := by omega
      simp only [hne, if_false]
      have : List.range' 0 n ++ [n] = List.range' 0 (n + 1) := by
        simp [List.range'_concat]
      simp [this]

lemma run_spec (N k : Nat) (h0 : 0 < N) (hk : k < N) :
    releaseK k (lockN N) = ⟨List.range' k (N - k), some k, List.range (k + 1), N⟩ := by
  induction k with
  | zero =>
    rw [lockN_spec N h0]
    have h1 : List.range 1 = [0] := rfl
    simp [releaseK, h1]
  | succ k ih =>
    have hk' : k < N := by omega
    rw [releaseK_succ, ih hk']
    have hsub : N - k = (N - (k + 1)) + 1 := by omega
    rw [hsub, List.range'_succ]
    simp only [release]
    rw [List.erase_cons_head]
    obtain ⟨m, hm⟩ : ∃ m, N - (k + 1) = m + 1 := ⟨N - (k + 1) - 1, by omega⟩
    rw [hm, List.range'_succ]
    simp only [List.head?_cons]
    have hnotmem : (k + 1) ∉ List.range (k + 1) := by simp
    simp [resolveEntry, hnotmem, List.range_succ]

lemma run_spec_last (N : Nat) (h0 : 0 < N) :
    releaseK N (lockN N) = ⟨[], none, List.range N, N⟩ := by
  obtain ⟨m, hm⟩ : ∃ m, N = m + 1 := ⟨N - 1, by omega⟩
  subst hm
  rw [releaseK_succ, run_spec (m + 1) m h0 (by omega)]
  have hsub : m + 1 - m = 1 := by omega
  rw [hsub]
  simp [release, List.range'_one]

lemma release_of_current_none (s : Mutex) (h : s.currentDeferred = none) :
    s.release = s := by
  unfold release
  rw [h]

lemma releaseK_stable (k : Nat) (s : Mutex) (h : s.currentDeferred = none) :
    releaseK k s = s := by
  induction k with
  | zero => rfl
  | succ k ih => rw [releaseK_succ, ih, release_of_current_none s h]

lemma releaseK_add (a b : Nat) (s : Mutex) :
    releaseK (a + b) s = releaseK b (releaseK a s) := by
  induction b with
  | zero => rfl
  | succ b ih => rw [← Nat.add_assoc, releaseK_succ, releaseK_succ, ih]

lemma run_resolved_of_ge (N k : Nat) (h0 : 0 < N) (hk : N ≤ k) :
    releaseK k (lockN N) = ⟨[], none, List.range N, N⟩ := by
  obtain ⟨m, hm⟩ : ∃ m, k = N + m := ⟨k - N, by omega⟩
  subst hm
  rw [releaseK_add, run_spec_last N h0, releaseK_stable]
  rfl

end Mutex

/-! ## BackgroundProcessor (src/background-processor.js)

Actions are modelled by numeric identities.  The structure carries the two
collections `_actionsToProcess` and `_actionsExecuting`, the `_isDisposed`
flag and the two configuration values; the extra `started` list records, in
order, each action on which `action.execute(...)` has been invoked. -/

structure BackgroundProcessor where
  actionsToProcess : List Nat
  actionsExecuting : List Nat
  isDisposed : Bool
  breakIntervalMilliseconds : Nat
  breakOnlyWhenNoWork : Bool
  started : List Nat
  deriving DecidableEq, Repr

namespace BackgroundProcessor

/-- `get queueLength()`: `this._actionsToProcess.length`. -/
def queueLength (s : BackgroundProcessor) : Nat := s.actionsToProcess.length

/-- The timeout computed by `_initiateBackgroundProcessing` before calling
`setTimeout`: none when disposed (the method returns without scheduling);
otherwise `breakIntervalMilliseconds`, overridden to `0` when
`breakOnlyWhenNoWork` holds and the pending queue is non-empty. -/
def scheduleTimeout (s : BackgroundProcessor) : Option Nat :=
  if s.isDisposed then none
  else
    let timeout := s.breakIntervalMilliseconds
    let timeout := if s.breakOnlyWhenNoWork = true ∧ 0 < s.actionsToProcess.length
      then 0 else timeout
    some timeout

/-- The body of the `setTimeout` callback in `_initiateBackgroundProcessing`:
if the pending queue is non-empty, shift one action, push it onto the
executing list and start it (`action.execute(...)`); otherwise leave the
state unchanged (the loop merely re-arms). -/
def tick (s : BackgroundProcessor) : BackgroundProcessor :=
  match s.actionsToProcess with
  | [] => s
  | a :: rest =>
    { s with actionsToProcess := rest,
             actionsExecuting := s.actionsExecuting ++ [a],
             started := s.started ++ [a] }

/-- The post-execute callback passed to `action.execute`:
`this._actionsExecuting.remove(action)` (removes the first occurrence). -/
def completeAction (a : Nat) (s : BackgroundProcessor) : BackgroundProcessor :=
  { s with actionsExecuting := s.actionsExecuting.erase a }

/-- The `while (this._actionsToProcess.length > 0)` drain loop inside
`dispose` when `killQueue` is false: repeatedly shift a pending action, push
it onto the executing list and start it. -/
def drainGo (pending : List Nat) (s : BackgroundProcessor) : BackgroundProcessor :=
  match pending with
  | [] => s
  | a :: rest =>
    drainGo rest { s with actionsToProcess := rest,
                          actionsExecuting := s.actionsExecuting ++ [a],
                          started := s.started ++ [a] }

def drainLoop (s : BackgroundProcessor) : BackgroundProcessor :=
  drainGo s.actionsToProcess s

/-- The synchronous part of `dispose(killQueue)`: return at once when
already disposed; otherwise set `_isDisposed`, cancel the timer (the step
relation below admits no tick on a disposed state), and drain the pending
queue unless `killQueue` is set.  The subsequent polling loop of `dispose`
is modelled by `disposeResolved`. -/
def dispose (killQueue : Bool) (s : BackgroundProcessor) : BackgroundProcessor :=
  if s.isDisposed then s
  else
    let s1 := { s with isDisposed := true }
    if killQueue then s1 else drainLoop s1

/-- `dispose`'s trailing `while (this._actionsExecuting.length > 0) await …`
poll loop exits — the promise returned by `dispose` resolves — exactly when
the executing list is empty. -/
def disposeResolved (s : BackgroundProcessor) : Prop := s.actionsExecuting = []

instance (s : BackgroundProcessor) : Decidable (disposeResolved s) := by
  unfold disposeResolved; infer_instance

/-- Apply a sequence of post-execute callbacks (completions), first to last. -/
def applyCompletions (evs : List Nat) (s : BackgroundProcessor) : BackgroundProcessor :=
  evs.foldl (fun t a => completeAction a t) s

/-- One asynchronous step of the processor after some point in time: either
the armed timer fires (only possible while not disposed — `dispose` both
clears the pending timer and makes `_initiateBackgroundProcessing` exit
early), or a started action completes and its post-execute callback runs. -/
inductive Step : BackgroundProcessor → BackgroundProcessor → Prop where
  | tickStep (s : BackgroundProcessor) (h : s.isDisposed = false) : Step s (tick s)
  | completeStep (s : BackgroundProcessor) (a : Nat) (h : a ∈ s.actionsExecuting) :
      Step s (completeAction a s)

/-- Reflexive-transitive closure of `Step`. -/
inductive Reach : BackgroundProcessor → BackgroundProcessor → Prop where
  | refl (s : BackgroundProcessor) : Reach s s
  | tail (s t u : BackgroundProcessor) (h1 : Reach s t) (h2 : Step t u) : Reach s u

lemma drainGo_spec (pending : List Nat) :
    ∀ s : BackgroundProcessor, s.actionsToProcess = pending →
    drainGo pending s = { s with actionsToProcess := [],
                                 actionsExecuting := s.actionsExecuting ++ pending,
                                 started := s.started ++ pending } := by
  induction pending with
  | nil =>
    intro s hs
    obtain ⟨p, ex, d, b, w, st⟩ := s
    simp_all [drainGo]
  | cons a rest ih =>
    intro s hs
    rw [drainGo, ih _ rfl]
    simp

lemma drainLoop_spec (s : BackgroundProcessor) :
    drainLoop s = { s with actionsToProcess := [],
                           actionsExecuting := s.actionsExecuting ++ s.actionsToProcess,
                           started := s.started ++ s.actionsToProcess } :=
  drainGo_spec s.actionsToProcess s rfl

lemma reach_disposed_frozen (s t : BackgroundProcessor) (hd : s.isDisposed = true)
    (hr : Reach s t) :
    t.started = s.started ∧ t.isDisposed = true
    ∧ t.actionsToProcess = s.actionsToProcess := by
  induction hr with
  | refl => exact ⟨rfl, hd, rfl⟩
  | tail t u h1 h2 ih =>
    obtain ⟨hst, hdt, hpt⟩ := ih
    cases h2 with
    | tickStep h => rw [hdt] at h; cases h
    | completeStep a h => exact ⟨hst, hdt, hpt⟩

lemma applyCompletions_empty_mem (evs : List Nat) (s : BackgroundProcessor) (a : Nat)
    (ha : a ∈ s.actionsExecuting) (hempty : (applyCompletions evs s).actionsExecuting = []) :
    a ∈ evs := by
  induction evs generalizing s with
  | nil =>
    simp only [applyCompletions, List.foldl_nil] at hempty
    rw [hempty] at ha
    cases ha
  | cons e rest ih =>
    by_cases hae : a = e
    · exact hae ▸ List.mem_cons_self e rest
    · have ha2 : a ∈ (completeAction e s).actionsExecuting := by
        simp only [completeAction]
        exact (List.mem_erase_of_ne hae).mpr ha
      exact List.mem_cons_of_mem e (ih (completeAction e s) ha2 hempty)

end BackgroundProcessor

/-! ## Action.execute (src/background-processor.js)

The outcome of the wrapped callable `this._action()` is either success, a
synchronous throw, or an asynchronous rejection; likewise for the error
handler `this._errorHandler(error)`.  `ExecResult` records the externally
observable effects of one `execute(postExecuteCallback)` call: with which
error (if any) the handler was invoked, what reached `console.error`, how
often the post-execute callback fired, and what (if anything) propagated to
the caller of `execute`. -/

inductive ActionOutcome where
  | success
  | syncThrow (e : Nat)
  | asyncReject (e : Nat)
  deriving DecidableEq, Repr

inductive HandlerOutcome where
  | ok
  | syncThrow (e : Nat)
  | asyncReject (e : Nat)
  deriving DecidableEq, Repr

structure ExecResult where
  handlerCalledWith : Option Nat
  logged : List Nat
  postCallbackCount : Nat
  propagated : Option Nat
  deriving DecidableEq, Repr

namespace Action

/-- The failure-handling block of `Action.execute`, duplicated verbatim in
the source for the `.catch` path and the outer `catch` path: invoke the
error handler with the action's error inside a `try`; on handler success,
run the post-execute callback; on a handler rejection, `console.error` the
secondary error and run the callback; on a synchronous handler throw, the
`catch` does the same. -/
def handleFailure (e : Nat) (ho : HandlerOutcome) : ExecResult :=
  match ho with
  | .ok => { handlerCalledWith := some e, logged := [], postCallbackCount := 1, propagated := none }
  | .syncThrow e2 =>
    { handlerCalledWith := some e, logged := [e2], postCallbackCount := 1, propagated := none }
  | .asyncReject e2 =>
    { handlerCalledWith := some e, logged := [e2], postCallbackCount := 1, propagated := none }

/-- `Action.execute(postExecuteCallback)`: run the action; on fulfilment,
the `.then` runs the callback; an asynchronous rejection lands in the
`.catch` handler and a synchronous throw in the outer `catch`, both of which
run the failure-handling block above.  Nothing is returned or re-thrown to
the caller on any path. -/
def execute (ao : ActionOutcome) (ho : HandlerOutcome) : ExecResult :=
  match ao with
  | .success =>
    { handlerCalledWith := none, logged := [], postCallbackCount := 1, propagated := none }
  | .syncThrow e => handleFailure e ho
  | .asyncReject e => handleFailure e ho

end Action

/-! ## Decoration-time validation of the duration parameters

Each decorator's duration-taking overload validates its parameter with a
synchronous `given(...)` chain before returning the decorator, i.e. at
decoration time.  A `Duration` itself can only be built from a non-negative
millisecond count (its constructor runs `ensure(t => t >= 0)`), so the
inputs below range over the integers a caller could attempt. -/

/-- `Duration.fromMilliSeconds` / the private constructor: rejects a
negative millisecond count, accepts zero and positives. -/
def durationFromMilliSeconds (ms : Int) : Except String Int :=
  if ms ≥ 0 then .ok ms else .error "ms"

/-- `debounce(delay)` (src/debounce.ts): the `Duration` branch runs
`given(delay, "delay") … .ensure(t => t.toMilliSeconds() > 0, "delay should
be greater than 0ms")` before the decorator is returned. -/
def debounceDecorate (delayMs : Int) : Except String Unit :=
  if delayMs > 0 then .ok () else .error "delay should be greater than 0ms"

/-- `dedupe(delay)` (src/dedupe.ts): same synchronous validation chain as
`debounce`. -/
def dedupeDecorate (delayMs : Int) : Except String Unit :=
  if delayMs > 0 then .ok () else .error "delay should be greater than 0ms"

/-- `throttle(delayOrTarget, …)` (dist/throttle.js): the validation of the
duration argument is only `given(delayOrTarget, "delayMsOrTarget")
.ensureHasValue().ensureIsObject()`; any `Duration` passes (a present
object), and `toMilliSeconds()` is read without a positivity check. -/
def throttleDecorate (_delayMs : Int) : Except String Unit :=
  .ok ()

/-- Modelled from the spec: the implementation of `synchronize` is absent
from the sources (only its declaration file and documentation are present);
per §4.4 "delay/window parameters, when provided, must be a duration value
strictly greater than zero; supplying a non-positive duration is a usage
error raised at decoration time". -/
def synchronizeDecorate (delayMs : Int) : Except String Unit :=
  if delayMs > 0 then .ok () else .error "delay should be greater than 0ms"

/-! ## Debounce replacement method (src/debounce.ts, delay configured)

Per-instance state of the wrapper: the `scheduledCallKey` slot (a thunk
carrying the arguments of the most recent call), the `activeKey` flag, and —
for the machine — which suspension point the one in-flight drain loop sits
at, plus the record of body executions with their arguments.  Calls that
find the flag set return immediately, so at most one drain loop is in
flight whenever every busy-time call bails out at the `if (this[activeKey])
return;` check, as in the scenarios below. -/

inductive DebouncePhase where
  | idle
  | delaying
  | executing
  deriving DecidableEq, Repr

structure DebounceState (A : Type) where
  slot : Option A
  active : Bool
  phase : DebouncePhase
  executions : List A
  deriving Repr

namespace Debounce

/-- Fresh per-instance state: no scheduled call, flag unset (the symbol
properties are absent, hence falsy), nothing executed. -/
def init (A : Type) : DebounceState A := ⟨none, false, .idle, []⟩

/-- The synchronous prefix of one call to the replacement method: overwrite
the scheduled-call slot with a thunk over this call's arguments; if the
active flag is set, return; otherwise enter the `while` loop (its condition
holds: the slot was just written and the flag is unset), set the flag and
suspend at `await Delay.milliseconds(...)`. -/
def call (a : A) (s : DebounceState A) : DebounceState A :=
  let s1 := { s with slot := some a }
  if s1.active then s1
  else if s1.slot.isSome && !s1.active then { s1 with active := true, phase := .delaying }
  else s1

/-- The continuation after the delay: read the scheduled call into
`currentCall`, clear the slot, and suspend inside `await currentCall()` —
the body runs with the arguments the slot held at this moment. -/
def delayElapsed (s : DebounceState A) : DebounceState A :=
  match s.slot with
  | some a => { s with slot := none, executions := s.executions ++ [a], phase := .executing }
  | none => s

/-- The continuation after the body settles: the `finally` clears the
active flag, then the `while` condition is re-checked synchronously — when
a new call landed during execution the loop re-arms and suspends at the
delay again, otherwise the loop exits. -/
def bodyDone (s : DebounceState A) : DebounceState A :=
  let s1 := { s with active := false }
  if s1.slot.isSome && !s1.active then { s1 with active := true, phase := .delaying }
  else { s1 with phase := .idle }

end Debounce

/-! ## Dedupe replacement method on a failing body (src/dedupe.ts)

The straight-line control flow of one admitted call (the flag was unset) is
embedded as the ordered trace of its observable events.  `runBody failed`
is the `await target.call(...)`; when a window duration is configured the
`finally` block first awaits `Delay.milliseconds(window)` and only then
clears the flag; after the `finally` completes, the body's outcome settles
the promise the wrapper returned to the caller. -/

inductive DedupeEvent where
  | setActive
  | runBody (failed : Bool)
  | sleepWindow (ms : Nat)
  | clearActive
  | settleCaller (error : Option Nat)
  deriving DecidableEq, Repr

/-- Event trace of one admitted call to the dedupe replacement method, for
a configured window of `windowMs` (none when the decorator was applied
bare) and a body that fails with `bodyError` (none on success). -/
def dedupeRun (windowMs : Option Nat) (bodyError : Option Nat) : List DedupeEvent :=
  [.setActive, .runBody bodyError.isSome]
    ++ (match windowMs with
        | some w => [.sleepWindow w]
        | none => [])
    ++ [.clearActive, .settleCaller bodyError]

/-! ## Claim theorems -/

/-- C8: for every Deferred and every sequence of resolve/reject invocations
on it, only the first invocation has any observable effect: the underlying
future settles exactly once, with the value or reason supplied by that
first invocation, and all later resolve/reject calls are silent no-ops. -/
theorem deferred_settles_once_with_first_invocation (α ρ : Type) (op : SettleOp α ρ)
    (ops : List (SettleOp α ρ)) :
    ((Deferred.new (α := α) (ρ := ρ)).applyOp op).applyOps ops
        = (Deferred.new (α := α) (ρ := ρ)).applyOp op
    ∧ (∀ v : α, ((Deferred.new (α := α) (ρ := ρ)).applyOp (.resolve v)).promise = .fulfilled v)
    ∧ (∀ r : ρ, ((Deferred.new (α := α) (ρ := ρ)).applyOp (.reject r)).promise = .rejected r) := by
  refine ⟨Deferred.applyOps_of_settled _ ops (Deferred.first_op_settles op), ?_, ?_⟩
  · intro v; rfl
  · intro r; rfl

/-- C1: for every sequence of `lock()` calls followed by a `release()` for
each grant, the order in which the returned futures resolve (recorded in
`resolvedOrder`) equals the order in which `lock()` was called — ids are
issued in call order, and after all `N` releases the resolution order is
exactly `[0, …, N-1]`; moreover after any `k < N` releases it is the call-
order prefix `[0, …, k]`, so at no intermediate point does any future
resolve out of call order. -/
theorem mutex_fifo_resolution_order (N k : Nat) (h0 : 0 < N) (hk : k < N) :
    (Mutex.releaseK N (Mutex.lockN N)).resolvedOrder = List.range N
    ∧ (Mutex.releaseK k (Mutex.lockN N)).resolvedOrder = List.range (k + 1) := by
  constructor
  · rw [Mutex.run_spec_last N h0]
  · rw [Mutex.run_spec N k h0 hk]

theorem mutex_fifo_resolution_order_witness :
    0 < 3 ∧ 1 < 3
    ∧ ((Mutex.releaseK 3 (Mutex.lockN 3)).resolvedOrder = List.range 3
       ∧ (Mutex.releaseK 1 (Mutex.lockN 3)).resolvedOrder = List.range 2) :=
  ⟨by decide, by decide, mutex_fifo_resolution_order 3 1 (by decide) (by decide)⟩

/-- C7: a `lock()` call on a mutex whose queue was empty makes the new
entry current and resolves it within the same synchronous `lock` call (the
returned future is already resolved); a `lock()` call on a non-empty queue
returns a future that is not resolved by the call itself, and — in the run
of `N` locks followed by releases — the `j`-th caller's future (0-indexed,
`j > 0`) is resolved after `k` releases exactly when all `j` earlier
holders have released, i.e. when `j ≤ k`. -/
theorem mutex_lock_grant_semantics (s s2 : Mutex) (N j k : Nat)
    (hempty : s.deferreds = [])
    (hne : s2.deferreds ≠ [])
    (hfresh : ∀ i ∈ s2.resolvedOrder, i < s2.nextId)
    (h0 : 0 < j) (hj : j < N) :
    (s.lock.1.currentDeferred = some s.lock.2 ∧ s.lock.2 ∈ s.lock.1.resolvedOrder)
    ∧ s2.lock.2 ∉ s2.lock.1.resolvedOrder
    ∧ (j ∈ (Mutex.releaseK k (Mutex.lockN N)).resolvedOrder ↔ j ≤ k) := by
  refine ⟨?_, ?_, ?_⟩
  · simp only [Mutex.lock, hempty, List.nil_append, List.length_singleton, if_true]
    constructor
    · simp only [Mutex.resolveEntry]
      by_cases hmem : s.nextId ∈ s.resolvedOrder <;> simp [hmem]
    · simp only [Mutex.resolveEntry]
      by_cases hmem : s.nextId ∈ s.resolvedOrder <;> simp [hmem]
  · have hlen : (s2.deferreds ++ [s2.nextId]).length ≠ 1 := by
      have : 0 < s2.deferreds.length := List.length_pos.mpr hne
      simp only [List.length_append, List.length_singleton]
      omega
    simp only [Mutex.lock, hlen, if_false]
    intro hmem
    exact absurd (hfresh _ hmem) (by omega)
  · rcases Nat.lt_or_ge k N with hkN | hkN
    · rw [Mutex.run_spec N k (by omega) hkN]
      simp only [List.mem_range]
      omega
    · rw [Mutex.run_resolved_of_ge N k (by omega) hkN]
      simp only [List.mem_range]
      omega

/-- C2: while not disposed, the delay armed before the next tick equals
`breakIntervalMilliseconds`, except that it is `0` whenever
`breakOnlyWhenNoWork` is true and the pending queue is non-empty; and when
the tick fires with a non-empty pending queue, exactly one action — the
head — is removed from the pending queue, appended to the executing list,
and started. -/
theorem backgroundProcessor_tick_scheduling (s : BackgroundProcessor) (a : Nat)
    (rest : List Nat) (hnd : s.isDisposed = false) :
    (s.breakOnlyWhenNoWork = true → s.actionsToProcess ≠ [] →
      BackgroundProcessor.scheduleTimeout s = some 0)
    ∧ (s.breakOnlyWhenNoWork = false →
      BackgroundProcessor.scheduleTimeout s = some s.breakIntervalMilliseconds)
    ∧ (s.actionsToProcess = [] →
      BackgroundProcessor.scheduleTimeout s = some s.breakIntervalMilliseconds)
    ∧ (s.actionsToProcess = a :: rest →
      (BackgroundProcessor.tick s).actionsToProcess = rest
      ∧ (BackgroundProcessor.tick s).actionsExecuting = s.actionsExecuting ++ [a]
      ∧ (BackgroundProcessor.tick s).started = s.started ++ [a]) := by
  refine ⟨?_, ?_, ?_, ?_⟩
  · intro hw hq
    have hlen : 0 < s.actionsToProcess.length := List.length_pos.mpr hq
    simp [BackgroundProcessor.scheduleTimeout, hnd, hw, hlen]
  · intro hw
    simp [BackgroundProcessor.scheduleTimeout, hnd, hw]
  · intro hq
    simp [BackgroundProcessor.scheduleTimeout, hnd, hq]
  · intro hq
    simp [BackgroundProcessor.tick, hq]

theorem backgroundProcessor_tick_scheduling_witness :
    ((⟨[4, 5], [], false, 1000, true, []⟩ : BackgroundProcessor).isDisposed = false)
    ∧ (((⟨[4, 5], [], false, 1000, true, []⟩ : BackgroundProcessor).breakOnlyWhenNoWork = true →
         (⟨[4, 5], [], false, 1000, true, []⟩ : BackgroundProcessor).actionsToProcess ≠ [] →
         BackgroundProcessor.scheduleTimeout ⟨[4, 5], [], false, 1000, true, []⟩ = some 0)
       ∧ ((⟨[4, 5], [], false, 1000, true, []⟩ : BackgroundProcessor).breakOnlyWhenNoWork = false →
         BackgroundProcessor.scheduleTimeout ⟨[4, 5], [], false, 1000, true, []⟩ = some 1000)
       ∧ ((⟨[4, 5], [], false, 1000, true, []⟩ : BackgroundProcessor).actionsToProcess = [] →
         BackgroundProcessor.scheduleTimeout ⟨[4, 5], [], false, 1000, true, []⟩ = some 1000)
       ∧ ((⟨[4, 5], [], false, 1000, true, []⟩ : BackgroundProcessor).actionsToProcess = [4, 5] →
         (BackgroundProcessor.tick ⟨[4, 5], [], false, 1000, true, []⟩).actionsToProcess = [5]
         ∧ (BackgroundProcessor.tick ⟨[4, 5], [], false, 1000, true, []⟩).actionsExecuting
             = [] ++ [4]
         ∧ (BackgroundProcessor.tick ⟨[4, 5], [], false, 1000, true, []⟩).started = [] ++ [4])) :=
  ⟨rfl, backgroundProcessor_tick_scheduling ⟨[4, 5], [], false, 1000, true, []⟩ 4 [5] rfl⟩

/-- C3: on a not-yet-disposed processor, `dispose(false)` starts every
pending action (they all move from the pending queue into the executing
list and onto the started list), and its returned future resolves only
after every one of them has completed — the poll loop's exit condition
(`disposeResolved`) can only hold once each drained action's post-execute
callback has run; `dispose(true)` starts none of the pending actions, in
any state reachable afterwards; and in both cases the dispose call resolves
exactly when the executing list is empty. -/
theorem backgroundProcessor_dispose_semantics (s t : BackgroundProcessor)
    (evs : List Nat) (a b : Nat)
    (hnd : s.isDisposed = false)
    (ha : a ∈ s.actionsToProcess) (hna : a ∉ s.started)
    (hr : BackgroundProcessor.Reach (BackgroundProcessor.dispose true s) t)
    (hb : b ∈ s.actionsToProcess) :
    (BackgroundProcessor.dispose false s).started = s.started ++ s.actionsToProcess
    ∧ (BackgroundProcessor.dispose false s).actionsToProcess = []
    ∧ (BackgroundProcessor.dispose false s).actionsExecuting
        = s.actionsExecuting ++ s.actionsToProcess
    ∧ (BackgroundProcessor.disposeResolved
         (BackgroundProcessor.applyCompletions evs (BackgroundProcessor.dispose false s))
       → b ∈ evs)
    ∧ (∀ u : BackgroundProcessor,
        BackgroundProcessor.disposeResolved u ↔ u.actionsExecuting = [])
    ∧ a ∉ t.started := by
  have hdf : BackgroundProcessor.dispose false s
      = { s with isDisposed := true, actionsToProcess := [],
                 actionsExecuting := s.actionsExecuting ++ s.actionsToProcess,
                 started := s.started ++ s.actionsToProcess } := by
    simp only [BackgroundProcessor.dispose, hnd, Bool.false_eq_true, if_false]
    rw [BackgroundProcessor.drainLoop_spec]
  have hdt : BackgroundProcessor.dispose true s = { s with isDisposed := true } := by
    simp [BackgroundProcessor.dispose, hnd]
  refine ⟨by rw [hdf], by rw [hdf], by rw [hdf], ?_, fun u => Iff.rfl, ?_⟩
  · intro hres
    exact BackgroundProcessor.applyCompletions_empty_mem evs _ b
      (by rw [hdf]; exact List.mem_append_right _ hb) hres
  · rw [hdt] at hr
    have := BackgroundProcessor.reach_disposed_frozen _ t rfl hr
    rw [this.1]
    exact hna

theorem backgroundProcessor_dispose_semantics_witness :
    ((⟨[7, 8], [], false, 1000, true, []⟩ : BackgroundProcessor).isDisposed = false
     ∧ 7 ∈ (⟨[7, 8], [], false, 1000, true, []⟩ : BackgroundProcessor).actionsToProcess
     ∧ 7 ∉ (⟨[7, 8], [], false, 1000, true, []⟩ : BackgroundProcessor).started
     ∧ BackgroundProcessor.Reach
         (BackgroundProcessor.dispose true ⟨[7, 8], [], false, 1000, true, []⟩)
         (BackgroundProcessor.dispose true ⟨[7, 8], [], false, 1000, true, []⟩)
     ∧ 8 ∈ (⟨[7, 8], [], false, 1000, true, []⟩ : BackgroundProcessor).actionsToProcess)
    ∧ ((BackgroundProcessor.dispose false ⟨[7, 8], [], false, 1000, true, []⟩).started
         = [] ++ [7, 8]
       ∧ (BackgroundProcessor.dispose false ⟨[7, 8], [], false, 1000, true, []⟩).actionsToProcess
           = []
       ∧ (BackgroundProcessor.dispose false ⟨[7, 8], [], false, 1000, true, []⟩).actionsExecuting
           = [] ++ [7, 8]
       ∧ (BackgroundProcessor.disposeResolved
            (BackgroundProcessor.applyCompletions [7, 8]
              (BackgroundProcessor.dispose false ⟨[7, 8], [], false, 1000, true, []⟩))
          → 8 ∈ [7, 8])
       ∧ (∀ u : BackgroundProcessor,
           BackgroundProcessor.disposeResolved u ↔ u.actionsExecuting = [])
       ∧ 7 ∉ (BackgroundProcessor.dispose true
                ⟨[7, 8], [], false, 1000, true, []⟩).started) :=
  ⟨⟨rfl, by decide, by decide, BackgroundProcessor.Reach.refl _, by decide⟩,
   backgroundProcessor_dispose_semantics ⟨[7, 8], [], false, 1000, true, []⟩
     (BackgroundProcessor.dispose true ⟨[7, 8], [], false, 1000, true, []⟩)
     [7, 8] 7 8 rfl (by decide) (by decide) (BackgroundProcessor.Reach.refl _) (by decide)⟩

/-- C9: `dispose(true)` on a not-yet-disposed processor leaves the pending
queue itself unmodified — the discarded action records remain in
`actionsToProcess`, so `queueLength` continues to report the same count —
and this persists in every state reachable after disposal, since no tick
can fire on a disposed processor and completions touch only the executing
list. -/
theorem backgroundProcessor_killQueue_leaves_pending (s t : BackgroundProcessor)
    (hnd : s.isDisposed = false)
    (hr : BackgroundProcessor.Reach (BackgroundProcessor.dispose true s) t) :
    (BackgroundProcessor.dispose true s).actionsToProcess = s.actionsToProcess
    ∧ (BackgroundProcessor.dispose true s).queueLength = s.queueLength
    ∧ t.actionsToProcess = s.actionsToProcess
    ∧ t.queueLength = s.queueLength := by
  have hdt : BackgroundProcessor.dispose true s = { s with isDisposed := true } := by
    simp [BackgroundProcessor.dispose, hnd]
  rw [hdt] at hr ⊢
  have hfrozen := BackgroundProcessor.reach_disposed_frozen _ t rfl hr
  refine ⟨rfl, rfl, hfrozen.2.2, ?_⟩
  simp [BackgroundProcessor.queueLength, hfrozen.2.2]

theorem backgroundProcessor_killQueue_leaves_pending_witness :
    ((⟨[1, 2, 3], [9], false, 500, false, []⟩ : BackgroundProcessor).isDisposed = false
     ∧ BackgroundProcessor.Reach
         (BackgroundProcessor.dispose true ⟨[1, 2, 3], [9], false, 500, false, []⟩)
         (BackgroundProcessor.completeAction 9
           (BackgroundProcessor.dispose true ⟨[1, 2, 3], [9], false, 500, false, []⟩)))
    ∧ ((BackgroundProcessor.dispose true
          ⟨[1, 2, 3], [9], false, 500, false, []⟩).actionsToProcess = [1, 2, 3]
       ∧ (BackgroundProcessor.dispose true
            ⟨[1, 2, 3], [9], false, 500, false, []⟩).queueLength = 3
       ∧ (BackgroundProcessor.completeAction 9
            (BackgroundProcessor.dispose true
              ⟨[1, 2, 3], [9], false, 500, false, []⟩)).actionsToProcess = [1, 2, 3]
       ∧ (BackgroundProcessor.completeAction 9
            (BackgroundProcessor.dispose true
              ⟨[1, 2, 3], [9], false, 500, false, []⟩)).queueLength = 3) :=
  ⟨⟨rfl, BackgroundProcessor.Reach.tail _ _ _ (BackgroundProcessor.Reach.refl _)
       (BackgroundProcessor.Step.completeStep _ 9 (by decide))⟩,
   backgroundProcessor_killQueue_leaves_pending ⟨[1, 2, 3], [9], false, 500, false, []⟩
     (BackgroundProcessor.completeAction 9
       (BackgroundProcessor.dispose true ⟨[1, 2, 3], [9], false, 500, false, []⟩))
     rfl
     (BackgroundProcessor.Reach.tail _ _ _ (BackgroundProcessor.Reach.refl _)
       (BackgroundProcessor.Step.completeStep _ 9 (by decide)))⟩

theorem mutex_lock_grant_semantics_witness :
    ((⟨[], none, [], 0⟩ : Mutex).deferreds = []
     ∧ (⟨[0], some 0, [0], 1⟩ : Mutex).deferreds ≠ []
     ∧ (∀ i ∈ (⟨[0], some 0, [0], 1⟩ : Mutex).resolvedOrder, i < 1)
     ∧ 0 < 1 ∧ 1 < 3)
    ∧ (((⟨[], none, [], 0⟩ : Mutex).lock.1.currentDeferred
          = some (⟨[], none, [], 0⟩ : Mutex).lock.2
        ∧ (⟨[], none, [], 0⟩ : Mutex).lock.2 ∈ (⟨[], none, [], 0⟩ : Mutex).lock.1.resolvedOrder)
       ∧ (⟨[0], some 0, [0], 1⟩ : Mutex).lock.2
           ∉ (⟨[0], some 0, [0], 1⟩ : Mutex).lock.1.resolvedOrder
       ∧ (1 ∈ (Mutex.releaseK 2 (Mutex.lockN 3)).resolvedOrder ↔ 1 ≤ 2)) :=
  ⟨⟨rfl, by decide, by decide, by decide, by decide⟩,
   mutex_lock_grant_semantics ⟨[], none, [], 0⟩ ⟨[0], some 0, [0], 1⟩ 3 1 2
     rfl (by decide) (by decide) (by decide) (by decide)⟩

/-- C4: for every action run by the processor whose wrapped callable throws
synchronously or rejects asynchronously, the action's error handler is
invoked with that error; if the handler itself throws or rejects, the
secondary error is logged to the error channel and swallowed; and on every
outcome the post-execute callback fires exactly once and nothing propagates
to the caller of `execute` (hence to the caller of `processAction`). -/
theorem action_execute_error_isolation (e e2 : Nat) (ho : HandlerOutcome) :
    (Action.execute (.syncThrow e) ho).handlerCalledWith = some e
    ∧ (Action.execute (.asyncReject e) ho).handlerCalledWith = some e
    ∧ (Action.execute (.syncThrow e) (.syncThrow e2)).logged = [e2]
    ∧ (Action.execute (.syncThrow e) (.asyncReject e2)).logged = [e2]
    ∧ (Action.execute (.asyncReject e) (.syncThrow e2)).logged = [e2]
    ∧ (Action.execute (.asyncReject e) (.asyncReject e2)).logged = [e2]
    ∧ (∀ ao : ActionOutcome, (Action.execute ao ho).postCallbackCount = 1
        ∧ (Action.execute ao ho).propagated = none) := by
  refine ⟨?_, ?_, rfl, rfl, rfl, rfl, ?_⟩
  · cases ho <;> rfl
  · cases ho <;> rfl
  · intro ao
    cases ao <;> cases ho <;> exact ⟨rfl, rfl⟩

/-- C5 is false on the code: the `debounce`, `dedupe` (and the spec-modelled
`synchronize`) decorators reject a non-positive duration synchronously at
decoration time, but `throttle` only checks that the argument is a present
object — a zero-millisecond `Duration` (which the `Duration` constructor
allows) is accepted by `throttle` without any error. -/
theorem throttle_accepts_nonpositive_duration :
    durationFromMilliSeconds 0 = Except.ok 0
    ∧ throttleDecorate 0 = Except.ok ()
    ∧ debounceDecorate 0 = Except.error "delay should be greater than 0ms"
    ∧ dedupeDecorate 0 = Except.error "delay should be greater than 0ms"
    ∧ synchronizeDecorate 0 = Except.error "delay should be greater than 0ms" :=
  ⟨rfl, rfl, rfl, rfl, rfl⟩

/-- C6: for a debounce-decorated method with a configured positive delay,
three calls with arguments `a1`, `a2`, `a3` arriving in rapid succession
while the instance is idle — all before the first execution of the body
starts, i.e. while the admitted call still awaits its delay — produce
exactly one execution of the method body, with `a3`'s arguments, after
which the wrapper returns to the idle state with the slot cleared. -/
theorem debounce_collapses_to_freshest_arguments (A : Type) (a1 a2 a3 : A) :
    (Debounce.bodyDone (Debounce.delayElapsed
        (Debounce.call a3 (Debounce.call a2 (Debounce.call a1 (Debounce.init A)))))).executions
      = [a3]
    ∧ Debounce.bodyDone (Debounce.delayElapsed
        (Debounce.call a3 (Debounce.call a2 (Debounce.call a1 (Debounce.init A)))))
      = ⟨none, false, .idle, [a3]⟩ :=
  ⟨rfl, rfl⟩

/-- C10: for a dedupe-decorated method with a configured window, when the
wrapped body fails, the window sleep still runs — it occurs after the busy
flag is set and before it is cleared — and the rejection settles the
admitted caller's promise only after the window sleep, not at the moment
the body fails. -/
theorem dedupe_failure_rejects_after_window (w e : Nat) :
    ∃ pre mid, dedupeRun (some w) (some e)
        = pre ++ DedupeEvent.sleepWindow w :: (mid ++ [DedupeEvent.settleCaller (some e)])
      ∧ DedupeEvent.clearActive ∈ mid
      ∧ DedupeEvent.setActive ∈ pre
      ∧ DedupeEvent.runBody true ∈ pre
      ∧ DedupeEvent.clearActive ∉ pre := by
  refine ⟨[.setActive, .runBody true], [.clearActive], rfl, ?_, ?_, ?_, ?_⟩
  · simp
  · simp
  · simp
  · simp

end NUtil
